import Mathlib

/-!
# A verification model of `ipynbstore_gridfs`

Shallow embedding of `src/ipynbstore_gridfs/__init__.py` — a Jupyter/IPython
`ContentsManager` that stores notebook documents in MongoDB GridFS and keeps
checkpoint metadata in a separate Mongo collection.

Modelling conventions:
* GridFS is a list of `(filename, blob)` pairs in insertion order; `put`
  appends a fresh version, `get_version`/`get_last_version` return the most
  recently inserted version for a filename, `list` returns the distinct
  filenames, `delete` removes the version with a given object id.
* The checkpoint collection is a list of records in insertion order; Mongo
  `find`, `count`, `update(..., upsert=True)` and `update(..., multi=True)`
  are modelled on that list.
* Blob bytes are modelled at the value level: the external `json` and
  `nbformat` codecs are bijections between a JSON value and its serialized
  text, so a stored notebook blob carries the JSON value whose serialization
  was written.  `json.dumps(x, sort_keys=True)` followed by a parse yields
  `Json.sortKeys x`; `json.dumps(x)` (no `sort_keys`) followed by a parse
  yields `x` itself.  Python `dict`s compare order-insensitively, so
  structural ("decoded") equality of two JSON values is equality of their
  key-sorted canonical forms.
* Python exceptions are `PyErr`; every operation returns
  `Except PyErr α × Store` (an exception does not roll back state changes
  already made).  `tornado.web.HTTPError` is `PyErr.httpError`;
  `gridfs.errors.NoFile` (raised by `get_version` on a missing file) is
  `PyErr.noFile`; any other Python-level exception is `PyErr.pyExc`.
* `datetime.utcnow()` / `tz.utcnow()` read a model clock `Store.time`.
-/

/-- JSON values, the decoded form of the documents stored in GridFS.
Objects carry their fields in (Python `dict` insertion) order. -/
inductive Json where
  | null : Json
  | bool : Bool → Json
  | num : Int → Json
  | str : String → Json
  | arr : List Json → Json
  | obj : List (String × Json) → Json
deriving Repr

namespace Json

mutual

/-- Decidable equality of JSON values. -/
def decEq : (a b : Json) → Decidable (a = b)
  | .null, .null => isTrue rfl
  | .bool a, .bool b =>
    if h : a = b then isTrue (by rw [h])
    else isFalse (by intro hh; injection hh; contradiction)
  | .num a, .num b =>
    if h : a = b then isTrue (by rw [h])
    else isFalse (by intro hh; injection hh; contradiction)
  | .str a, .str b =>
    if h : a = b then isTrue (by rw [h])
    else isFalse (by intro hh; injection hh; contradiction)
  | .arr xs, .arr ys =>
    match decEqList xs ys with
    | isTrue h => isTrue (by rw [h])
    | isFalse h => isFalse (by intro hh; injection hh; contradiction)
  | .obj fs, .obj gs =>
    match decEqFields fs gs with
    | isTrue h => isTrue (by rw [h])
    | isFalse h => isFalse (by intro hh; injection hh; contradiction)
  | .null, .bool _ | .null, .num _ | .null, .str _ | .null, .arr _ | .null, .obj _
  | .bool _, .null | .bool _, .num _ | .bool _, .str _ | .bool _, .arr _ | .bool _, .obj _
  | .num _, .null | .num _, .bool _ | .num _, .str _ | .num _, .arr _ | .num _, .obj _
  | .str _, .null | .str _, .bool _ | .str _, .num _ | .str _, .arr _ | .str _, .obj _
  | .arr _, .null | .arr _, .bool _ | .arr _, .num _ | .arr _, .str _ | .arr _, .obj _
  | .obj _, .null | .obj _, .bool _ | .obj _, .num _ | .obj _, .str _ | .obj _, .arr _ =>
    isFalse (by intro h; cases h)

/-- Decidable equality of JSON value lists. -/
def decEqList : (a b : List Json) → Decidable (a = b)
  | [], [] => isTrue rfl
  | x :: xs, y :: ys =>
    match decEq x y, decEqList xs ys with
    | isTrue h1, isTrue h2 => isTrue (by rw [h1, h2])
    | isFalse h1, _ => isFalse (by intro hh; injection hh; contradiction)
    | _, isFalse h2 => isFalse (by intro hh; injection hh; contradiction)
  | [], _ :: _ => isFalse (by intro h; cases h)
  | _ :: _, [] => isFalse (by intro h; cases h)

/-- Decidable equality of JSON object field lists. -/
def decEqFields : (a b : List (String × Json)) → Decidable (a = b)
  | [], [] => isTrue rfl
  | (k, v) :: xs, (k', v') :: ys =>
    if h0 : k = k' then
      match decEq v v', decEqFields xs ys with
      | isTrue h1, isTrue h2 => isTrue (by rw [h0, h1, h2])
      | isFalse h1, _ =>
        isFalse (by intro hh; injection hh with hp _; injection hp; contradiction)
      | _, isFalse h2 => isFalse (by intro hh; injection hh; contradiction)
    else isFalse (by intro hh; injection hh with hp _; injection hp; contradiction)
  | [], _ :: _ => isFalse (by intro h; cases h)
  | _ :: _, [] => isFalse (by intro h; cases h)

end

instance : DecidableEq Json := decEq

/-- Order on object fields used by `json.dumps(..., sort_keys=True)`:
compare keys. -/
def keyLe (a b : String × Json) : Prop := a.1 ≤ b.1

instance : DecidableRel keyLe := fun a b => inferInstanceAs (Decidable (a.1 ≤ b.1))

instance : IsTotal (String × Json) keyLe := ⟨fun a b => le_total a.1 b.1⟩

instance : IsTrans (String × Json) keyLe := ⟨fun _ _ _ h h' => le_trans h h'⟩

/-- The canonical (key-sorted) form of a JSON value: the value obtained by
parsing `json.dumps(x, sort_keys=True)`. -/
def sortKeys : Json → Json
  | .null => .null
  | .bool b => .bool b
  | .num n => .num n
  | .str s => .str s
  | .arr xs => .arr (xs.attach.map fun x => sortKeys x.1)
  | .obj fs => .obj (List.insertionSort keyLe
      (fs.attach.map fun kv => (kv.1.1, sortKeys kv.1.2)))
decreasing_by
  · have h := List.sizeOf_lt_of_mem x.2
    simp only [Json.arr.sizeOf_spec]
    omega
  · obtain ⟨⟨k, v⟩, hkv⟩ := kv
    have h := List.sizeOf_lt_of_mem hkv
    simp only [Prod.mk.sizeOf_spec] at h
    simp only [Json.obj.sizeOf_spec]
    omega

theorem sortKeys_arr (xs : List Json) :
    sortKeys (.arr xs) = .arr (xs.map fun x => sortKeys x) := by
  rw [sortKeys]
  simp [List.pmap_eq_map]

theorem sortKeys_obj (fs : List (String × Json)) :
    sortKeys (.obj fs) = .obj (List.insertionSort keyLe
      (fs.map fun kv => (kv.1, sortKeys kv.2))) := by
  rw [sortKeys]
  congr 1
  congr 1
  rw [← List.attach_map_coe fs (fun kv => (kv.1, sortKeys kv.2))]

/-- Structural ("decoded") equality of JSON documents: Python `dict`s compare
independently of key order, so two values are structurally equal iff their
canonical key-sorted forms coincide. -/
def structEq (a b : Json) : Prop := sortKeys a = sortKeys b

instance : DecidableRel structEq := fun a b =>
  inferInstanceAs (Decidable (sortKeys a = sortKeys b))

theorem map_sortKeys_eq_self :
    ∀ l : List (String × Json), (∀ kv ∈ l, sortKeys kv.2 = kv.2) →
      List.map (fun kv => (kv.1, sortKeys kv.2)) l = l := by
  intro l hl
  induction l with
  | nil => rfl
  | cons a t iht =>
    obtain ⟨k, v⟩ := a
    simp only [List.map_cons, List.cons.injEq]
    refine ⟨?_, iht fun kv hkv => hl kv (List.mem_cons_of_mem _ hkv)⟩
    rw [hl ⟨k, v⟩ (List.mem_cons_self _ _)]

theorem sortKeys_idem : ∀ j : Json, sortKeys (sortKeys j) = sortKeys j := by
  intro j
  induction j using Json.sortKeys.induct with
  | case1 => simp [sortKeys]
  | case2 b => simp [sortKeys]
  | case3 n => simp [sortKeys]
  | case4 s => simp [sortKeys]
  | case5 xs ih =>
    simp only [sortKeys_arr, Json.arr.injEq, List.map_map]
    exact List.map_congr_left fun x hx => ih ⟨x, hx⟩
  | case6 fs ih =>
    simp only [sortKeys_obj, Json.obj.injEq]
    have hfix : ∀ kv ∈ List.insertionSort keyLe (fs.map fun kv => (kv.1, sortKeys kv.2)),
        sortKeys kv.2 = kv.2 := by
      intro kv hkv
      rw [List.mem_insertionSort] at hkv
      obtain ⟨kv₀, hkv₀, rfl⟩ := List.mem_map.mp hkv
      exact ih ⟨kv₀, hkv₀⟩
    rw [map_sortKeys_eq_self _ hfix]
    exact (List.sorted_insertionSort keyLe _).insertionSort_eq

end Json

/-! ## Python-level values and errors -/

/-- Python exceptions raised by the manager.
`httpError` is `tornado.web.HTTPError(status, log_message, reason=...)`
(we record the `reason=` keyword when the source passes one);
`noFile` is `gridfs.errors.NoFile` raised by `get_version`/`get_last_version`
on a missing file; `pyExc` is any other Python exception
(e.g. the `AttributeError` from calling an undefined method). -/
inductive PyErr where
  | httpError (status : Nat) (reason : Option String)
  | noFile
  | pyExc (msg : String)
  | recursionLimit
deriving DecidableEq, Repr

/-- Does `except web.HTTPError:` catch this exception? -/
def PyErr.isHTTP : PyErr → Bool
  | .httpError _ _ => true
  | _ => false

/-- The payload of `model['content']` handed to `save`: either a JSON-like
structure (notebook dict) or a plain string (file body). -/
inductive SaveContent where
  | json (j : Json)
  | text (t : String)
deriving DecidableEq, Repr

/-- Bytes of one GridFS blob, at the value level.
`nb j` is serialized JSON text that parses back to `j`;
`raw c fmt` is an opaque file payload stored with its declared format. -/
inductive BlobData where
  | nb (j : Json)
  | raw (content : SaveContent) (format : Option String)
deriving DecidableEq, Repr

/-- One GridFS file version: its ObjectId and its bytes. -/
structure Blob where
  oid : Nat
  data : BlobData
deriving DecidableEq, Repr

/-- One document of the checkpoint collection, as written by
`create_checkpoint`: `{'_id': chid, 'path': path, 'cp': str(count),
'id': chid, 'lastModified': now}`.  The numeric string `cp` and the
ObjectId strings are modelled by the numbers themselves. -/
structure CpRec where
  mongoId : Nat
  path : String
  cp : Nat
  blobId : Nat
  lastModified : Nat
deriving DecidableEq, Repr

/-- The backing MongoDB state plus the model clock:
`files` is the GridFS collection in insertion order (one entry per stored
version), `cps` the checkpoint collection in insertion order, `nextId` the
ObjectId generator, `time` the value `datetime.utcnow()` reads. -/
structure Store where
  files : List (String × Blob)
  cps : List CpRec
  nextId : Nat
  time : Nat
deriving DecidableEq, Repr

/-- The store with both collections empty. -/
def Store.empty : Store := ⟨[], [], 0, 0⟩

/-- Well-formedness: distinct ObjectIds, all below the generator. -/
def Store.WF (s : Store) : Prop :=
  (s.files.map fun e => e.2.oid).Nodup ∧ ∀ e ∈ s.files, e.2.oid < s.nextId

/-! ## String helpers -/

/-- Python `s.strip('/')` on the character list: remove every leading and
trailing `'/'`. -/
def pstripL (l : List Char) : List Char :=
  ((l.dropWhile (· == '/')).reverse.dropWhile (· == '/')).reverse

/-- Python `s.strip('/')`: remove every leading and trailing `'/'`. -/
def pstrip (s : String) : String := String.mk (pstripL s.data)

/-- Python `s.endswith('.ipynb')`. -/
def endsIpynb (s : String) : Bool := ".ipynb".data.isSuffixOf s.data

/-- Python `path.rsplit('/', 1)[-1]`, as used by `_base_model` for
`model['name']`: the part of the path after the last `'/'`. -/
def lastComponent (p : String) : String :=
  String.mk ((p.data.reverse.takeWhile (· != '/')).reverse)

/-! ## GridFS and checkpoint-collection primitives -/

/-- `gridfs.GridFS.list()`: the distinct filenames present. -/
def fsList (s : Store) : List String := (s.files.map Prod.fst).dedup

/-- `gridfs.GridFS.get_version(path)` / `get_last_version(path)` with the
default version `-1`: the most recently inserted version for the filename,
or `NoFile` (here `none`) when absent. -/
def getVersion (s : Store) (path : String) : Option Blob :=
  (s.files.reverse.find? fun e => e.1 == path).map Prod.snd

/-- `gridfs.GridFS.put(data, filename=path)`: append a new version under a
fresh ObjectId; never overwrites. -/
def fsPut (s : Store) (path : String) (d : BlobData) : Store :=
  { s with files := s.files ++ [(path, ⟨s.nextId, d⟩)], nextId := s.nextId + 1 }

/-- `gridfs.GridFS.delete(oid)`: remove the single version with this
ObjectId. -/
def fsDeleteId (s : Store) (oid : Nat) : Store :=
  { s with files := s.files.filter fun e => e.2.oid != oid }

/-- `checkpoint_collection.find({'path': p})` (insertion order). -/
def cpFind (s : Store) (path : String) : List CpRec :=
  s.cps.filter fun r => r.path == path

/-- Mongo `update(spec, {'$set': {'_id': v}})` without `multi`: set `_id`
on the first matching document. -/
def setIdFirst : List CpRec → (CpRec → Bool) → Nat → List CpRec
  | [], _, _ => []
  | r :: rs, m, v => if m r then { r with mongoId := v } :: rs else r :: setIdFirst rs m v

/-- `json.loads` of a blob's bytes (then `nbformat.from_dict`, which is the
structural identity): a stored notebook blob parses back to its JSON value;
an opaque file payload is not modelled as parseable JSON. -/
def loadsData : BlobData → Option Json
  | .nb j => some j
  | .raw _ _ => none

/-- The number of stored versions of a (normalized) path. -/
def versionsAt (s : Store) (p : String) : Nat :=
  (s.files.filter fun e => e.1 == p).length

/-! ## Response models -/

/-- The non-content fields set by `_base_model` (plus the advisory
`message` that `save` may attach). -/
structure ModelBase where
  name : String
  path : String
  created : Nat
  lastModified : Nat
  mtype : Option String
  format : Option String
  mimetype : Option String
  writable : Bool
  message : Option String
deriving DecidableEq, Repr

/-- A contents model: base fields plus `model['content']`, which is `None`,
a notebook JSON value, or a directory listing of models. -/
inductive Model where
  | mk (base : ModelBase) (jcontent : Option Json) (listing : Option (List Model))

def Model.base : Model → ModelBase
  | .mk b _ _ => b

def Model.jcontent : Model → Option Json
  | .mk _ j _ => j

def Model.listing : Model → Option (List Model)
  | .mk _ _ l => l

def Model.name (m : Model) : String := m.base.name

def Model.mtype (m : Model) : Option String := m.base.mtype

def Model.mformat (m : Model) : Option String := m.base.format

/-- `_base_model(path)`: fresh timestamps from the clock, content `None`,
writable, no format/mimetype. -/
def base_model (s : Store) (path : String) : ModelBase :=
  { name := lastComponent path
    path := path
    created := s.time
    lastModified := s.time
    mtype := none
    format := none
    mimetype := none
    writable := true
    message := none }

/-! ## Manager operations -/

/-- `file_exists(path)`: strip separators; the empty path never exists; a
non-empty path exists iff it is among the GridFS filenames. -/
def file_exists (s : Store) (path : String) : Bool :=
  let p := pstrip path
  if p == "" then false
  else (fsList s).contains p

/-- `dir_exists(path)`: only the root `''` is a directory. -/
def dir_exists (path : String) : Bool := path == ""

/-- `exists(path)`: a file or the root directory. -/
def existsPath (s : Store) (path : String) : Bool :=
  let p := pstrip path
  file_exists s p || dir_exists p

/-- The `{id, last_modified}` projection returned by the checkpoint API
(`id` is the stored `cp` sequence string, modelled by its number). -/
structure CpOut where
  id : Nat
  last_modified : Nat
deriving DecidableEq, Repr

/-- `list_checkpoints(path)`: project every checkpoint record of the path. -/
def list_checkpoints (s : Store) (path : String) : List CpOut :=
  (cpFind s (pstrip path)).map fun c => ⟨c.cp, c.lastModified⟩

/-- `create_checkpoint(path)`: fetch the latest blob version (`NoFile`
propagates if none), let `cp_id` be the current record count for the path,
then Mongo-upsert `{'path', 'cp', 'id', 'lastModified'}` with
`{'$set': {'_id': chid}}` and return `{id: cp_id, last_modified: now}`. -/
def create_checkpoint (s : Store) (path : String) : Except PyErr CpOut × Store :=
  let p := pstrip path
  match getVersion s p with
  | none => (.error .noFile, s)
  | some blob =>
    let chid := blob.oid
    let cpId := (cpFind s p).length
    let lm := s.time
    let matchesSpec := fun r : CpRec =>
      r.path == p && r.cp == cpId && r.blobId == chid && r.lastModified == lm
    let s' :=
      if s.cps.any matchesSpec then
        { s with cps := setIdFirst s.cps matchesSpec chid }
      else
        { s with cps := s.cps ++ [⟨chid, p, cpId, chid, lm⟩] }
    (.ok ⟨cpId, lm⟩, s')

/-- `_read_notebook(path)`: `get_last_version` (uncaught `NoFile` if the
path has no version), read the bytes, `nbformat.read` them (a parse
failure is HTTP 400 "Unreadable Notebook"). -/
def read_notebook (s : Store) (path : String) : Except PyErr Json :=
  match getVersion s path with
  | none => .error .noFile
  | some blob =>
    match loadsData blob.data with
    | some j => .ok j
    | none => .error (.httpError 400 none)

/-- `_notebook_model(path, content)`: base model with type `'notebook'`;
when content is requested, read and attach the notebook JSON and set
format `'json'` (`mark_trusted_cells` and `validate_notebook_model` are
advisory host calls with no structural effect on the model). -/
def notebook_model (s : Store) (path : String) (content : Bool) : Except PyErr Model :=
  let b := base_model s path
  if content then
    match read_notebook s path with
    | .error e => .error e
    | .ok nb =>
      .ok (.mk { b with mtype := some "notebook", format := some "json" } (some nb) none)
  else
    .ok (.mk { b with mtype := some "notebook" } none none)

/-- `get(path, content, type)` with an explicit recursion budget: Python
recursion on a self-listing root is bounded by the interpreter's recursion
limit (`recursionLimit` models `RecursionError`).  Branches, in source
order: 404 when `exists` fails; the root returns `_dir_model` (rejecting a
non-directory `type` with 400 `bad type`); `type == 'notebook'` or a
default-typed `.ipynb` path returns `_notebook_model`; everything else is
400 `bad type` (the `_file_model` line is unreachable).  `_dir_model`
always builds the listing — the `content` flag is only passed down to the
per-entry `get` calls. -/
def getAux : Nat → Store → String → Bool → Option String → Except PyErr Model
  | 0, _, _, _, _ => .error .recursionLimit
  | fuel + 1, s, path0, content, type =>
    let path := pstrip path0
    if ¬ existsPath s path then .error (.httpError 404 none)
    else if path == "" then
      if type != none && type != some "directory" then
        .error (.httpError 400 (some "bad type"))
      else
        match (fsList s).mapM (fun name => getAux fuel s name content none) with
        | .error e => .error e
        | .ok entries =>
          let b := base_model s path
          .ok (.mk { b with mtype := some "directory", format := some "json" }
            none (some entries))
    else if type == some "notebook" || (type == none && endsIpynb path) then
      notebook_model s path content
    else
      .error (.httpError 400 (some "bad type"))

/-- Python's default recursion limit, the budget for `get`. -/
def recursionBound : Nat := 1000

/-- `get(path, content=..., type=...)`. -/
def contentsGet (s : Store) (path : String) (content : Bool) (type : Option String) :
    Except PyErr Model :=
  getAux recursionBound s path content type

theorem recursionBound_eq : recursionBound = 999 + 1 := rfl

attribute [irreducible] recursionBound

/-- `delete(path)`: silently return when `file_exists` fails; otherwise
fetch the latest version and delete that single ObjectId. -/
def delete (s : Store) (path : String) : Except PyErr Unit × Store :=
  if ¬ file_exists s path then (.ok (), s)
  else
    let p := pstrip path
    match getVersion s p with
    | none => (.error .noFile, s)
    | some blob => (.ok (), fsDeleteId s blob.oid)

/-- The checkpoint retarget step of `rename`: Mongo
`update({'path': old}, {'$set': {'path': new}}, multi=True)`. -/
def retargetCps (cps : List CpRec) (oldP newP : String) : List CpRec :=
  cps.map fun r => if r.path == oldP then { r with path := newP } else r

/-- `rename(old_path, new_path)`: strip both; equal normalized paths return
silently; an existing destination (`file_exists`, not `exists`) is HTTP 409;
then, inside `try`, read the latest source version, `json.loads` +
`nbformat.from_dict` it, `put` its (unsorted) dump under the new name and
`delete(old_path)` — any exception there becomes HTTP 500 with the state
reached so far kept; finally retarget all checkpoint records. -/
def rename (s : Store) (old_path new_path : String) : Except PyErr Unit × Store :=
  let o := pstrip old_path
  let n := pstrip new_path
  if n == o then (.ok (), s)
  else if file_exists s n then (.error (.httpError 409 none), s)
  else
    match getVersion s o with
    | none => (.error (.httpError 500 none), s)
    | some blob =>
      match loadsData blob.data with
      | none => (.error (.httpError 500 none), s)
      | some j =>
        let s₁ := fsPut s n (.nb j)
        match delete s₁ o with
        | (.error _, s₂) => (.error (.httpError 500 none), s₂)
        | (.ok _, s₂) => (.ok (), { s₂ with cps := retargetCps s₂.cps o n })

/-- Modelled from the spec: `_save_file` is called by `save` for
`model['type'] == 'file'` but is defined neither in the source file nor on
the `ContentsManager` base class it subclasses.  The spec says the `file`
branch is "persist raw content with caller-declared format (text/base64)
directly, no decoding", so it is modelled as a GridFS `put` of the
undecoded payload together with the declared format. -/
def save_file (s : Store) (path : String) (content : SaveContent)
    (format : Option String) : Store :=
  fsPut s path (.raw content format)

/-- The model dict handed to `save`: the fields the source reads. -/
structure SaveModel where
  mtype : Option String
  content : Option SaveContent
  format : Option String
deriving DecidableEq, Repr

/-- The implicit-checkpoint step of `save`: when the path already has a
blob version and no checkpoint records, `create_checkpoint` runs first.
The call is outside `try`, so its exceptions propagate unwrapped. -/
def saveCpStep (s : Store) (p : String) : Except PyErr Unit × Store :=
  if file_exists s p && (list_checkpoints s p).isEmpty then
    match create_checkpoint s p with
    | (.error e, s') => (.error e, s')
    | (.ok _, s') => (.ok (), s')
  else (.ok (), s)

/-- The `try:` body of `save`, dispatching on the declared type:
notebook → `nbformat.from_dict` / `check_and_sign` / `_save_notebook`
(which `put`s `json.dumps(nb, sort_keys=True)`); file → `_save_file`;
directory → `_save_directory` (an undefined attribute, hence a generic
exception); anything else → HTTP 400 "Unhandled contents type". -/
def saveBody (s : Store) (mt : String) (content : Option SaveContent)
    (format : Option String) (p : String) : Except PyErr Unit × Store :=
  if mt == "notebook" then
    match content with
    | some (.json j) => (.ok (), fsPut s p (.nb (Json.sortKeys j)))
    | _ => (.error (.pyExc "from_dict"), s)
  else if mt == "file" then
    match content with
    | some c => (.ok (), save_file s p c format)
    | none => (.error (.pyExc "no content"), s)
  else if mt == "directory" then
    (.error (.pyExc "save directory: undefined attribute"), s)
  else
    (.error (.httpError 400 none), s)

/-- `save(model, path)`: 400 without a `type`, 400 without `content`
unless a directory; then the implicit-checkpoint step; then the typed
body, where a non-HTTP exception becomes HTTP 500; finally
`validate_notebook_model` (advisory, no structural message modelled) and
`get(path, content=False)`, whose exceptions propagate from outside the
`try` block. -/
def save (s : Store) (model : SaveModel) (path : String) :
    Except PyErr Model × Store :=
  let p := pstrip path
  match model.mtype with
  | none => (.error (.httpError 400 none), s)
  | some mt =>
    if model.content == none && mt != "directory" then
      (.error (.httpError 400 none), s)
    else
      match saveCpStep s p with
      | (.error e, s₁) => (.error e, s₁)
      | (.ok _, s₁) =>
        match saveBody s₁ mt model.content model.format p with
        | (.error e, s₂) =>
          if e.isHTTP then (.error e, s₂) else (.error (.httpError 500 none), s₂)
        | (.ok _, s₂) =>
          match contentsGet s₂ p false none with
          | .error e => (.error e, s₂)
          | .ok m => (.ok m, s₂)

/-! ## Basic lemmas about the primitives -/

theorem head_dropWhile_false {α : Type} (p : α → Bool) :
    ∀ (l : List α) (x : α), (l.dropWhile p).head? = some x → p x = false := by
  intro l
  induction l with
  | nil => simp
  | cons a t ih =>
    intro x h
    by_cases hp : p a
    · rw [List.dropWhile_cons_of_pos hp] at h
      exact ih x h
    · rw [List.dropWhile_cons_of_neg hp] at h
      simp only [List.head?_cons, Option.some.injEq] at h
      rw [← h]
      exact Bool.eq_false_iff.mpr hp

theorem dropWhile_eq_self_of_head {α : Type} (p : α → Bool) (l : List α)
    (h : ∀ x, l.head? = some x → p x = false) : l.dropWhile p = l := by
  cases l with
  | nil => rfl
  | cons a t =>
    have := h a rfl
    rw [List.dropWhile_cons_of_neg (by rw [this]; exact Bool.false_ne_true)]

theorem getLast?_of_suffix {α : Type} {l m : List α} (h : l <:+ m) (hne : l ≠ []) :
    l.getLast? = m.getLast? := by
  obtain ⟨t, rfl⟩ := h
  exact (List.getLast?_append_of_ne_nil t hne).symm

theorem pstripL_idem (l : List Char) : pstripL (pstripL l) = pstripL l := by
  unfold pstripL
  set q : Char → Bool := fun c => c == '/' with hq
  set x : List Char := l.dropWhile q with hx
  set y : List Char := x.reverse.dropWhile q with hy
  by_cases hyn : y = []
  · rw [hyn]
    rfl
  have hyhead : ∀ z, y.head? = some z → q z = false := fun z hz =>
    head_dropWhile_false q x.reverse z (hy ▸ hz)
  have hylast : ∀ z, y.reverse.head? = some z → q z = false := by
    intro z hz
    rw [List.head?_reverse] at hz
    have hsuf : y <:+ x.reverse := hy ▸ List.dropWhile_suffix q
    rw [getLast?_of_suffix hsuf hyn, List.getLast?_reverse] at hz
    exact head_dropWhile_false q l z (hx ▸ hz)
  rw [dropWhile_eq_self_of_head q y.reverse hylast, List.reverse_reverse,
    dropWhile_eq_self_of_head q y hyhead]

theorem pstrip_idem (s : String) : pstrip (pstrip s) = pstrip s :=
  congrArg String.mk (pstripL_idem s.data)

theorem mem_fsList {s : Store} {q : String} : q ∈ fsList s ↔ ∃ e ∈ s.files, e.1 = q := by
  simp [fsList, List.mem_dedup, List.mem_map]

theorem getVersion_isSome_iff {s : Store} {q : String} :
    (getVersion s q).isSome ↔ ∃ e ∈ s.files, e.1 = q := by
  rw [getVersion, Option.isSome_map']
  rw [List.find?_isSome]
  simp

theorem file_exists_iff {s : Store} {p : String} :
    file_exists s p = true ↔ pstrip p ≠ "" ∧ ∃ e ∈ s.files, e.1 = pstrip p := by
  rw [file_exists]
  by_cases h : pstrip p = ""
  · rw [h]
    simp
  · have hb : (pstrip p == "") = false := by
      rw [beq_eq_false_iff_ne]
      exact h
    rw [hb]
    simp only [Bool.false_eq_true, if_false, ne_eq, h, not_false_eq_true, true_and]
    rw [List.contains_eq_any_beq, List.any_eq_true]
    simp only [beq_iff_eq]
    constructor
    · rintro ⟨a, ha, rfl⟩
      exact mem_fsList.mp ha
    · intro hh
      exact ⟨pstrip p, mem_fsList.mpr hh, rfl⟩

theorem file_exists_eq_getVersion_isSome {s : Store} {p : String} :
    file_exists s p = true ↔ pstrip p ≠ "" ∧ (getVersion s (pstrip p)).isSome := by
  rw [file_exists_iff, getVersion_isSome_iff]

theorem getVersion_fsPut_self (s : Store) (p : String) (d : BlobData) :
    getVersion (fsPut s p d) p = some ⟨s.nextId, d⟩ := by
  simp [getVersion, fsPut, List.find?_cons]

theorem getVersion_fsPut_ne (s : Store) (p q : String) (d : BlobData) (h : q ≠ p) :
    getVersion (fsPut s p d) q = getVersion s q := by
  simp only [getVersion, fsPut, List.reverse_append, List.reverse_cons, List.reverse_nil,
    List.nil_append, List.cons_append, List.find?_cons]
  have hpq : (p == q) = false := by
    rw [beq_eq_false_iff_ne]
    exact fun hh => h hh.symm
  simp [hpq]

theorem fsPut_cps (s : Store) (p : String) (d : BlobData) : (fsPut s p d).cps = s.cps := rfl

theorem fsPut_time (s : Store) (p : String) (d : BlobData) : (fsPut s p d).time = s.time := rfl

theorem list_checkpoints_fsPut (s : Store) (p q : String) (d : BlobData) :
    list_checkpoints (fsPut s p d) q = list_checkpoints s q := rfl

theorem file_exists_fsPut_self (s : Store) (d : BlobData) (p' : String)
    (hstrip : pstrip p' = p') (hne : p' ≠ "") :
    file_exists (fsPut s p' d) p' = true := by
  rw [file_exists_eq_getVersion_isSome, hstrip]
  refine ⟨hne, ?_⟩
  rw [getVersion_fsPut_self]
  rfl

/-! ## Concrete fixtures for witnesses and counterexamples -/

/-- A minimal v4 notebook document. -/
def nbA : Json := .obj [("cells", .arr []), ("metadata", .obj []), ("nbformat", .num 4)]

/-- A notebook save model carrying `nbA`. -/
def saveModelA : SaveModel := ⟨some "notebook", some (.json nbA), none⟩

/-- The store after one save of `nbA` at `"a.ipynb"` from empty. -/
def stA : Store := (save Store.empty saveModelA "a.ipynb").2

/-- After a second save at `"a.ipynb"` (the path then has two versions). -/
def stA2 : Store := (save stA saveModelA "a.ipynb").2

/-- After saves at `"a.ipynb"` and then `"b.ipynb"`. -/
def stAB : Store := (save stA saveModelA "b.ipynb").2

/-! ## C10 — rename on equal normalized paths is a silent no-op -/

/-- C10: for every store and all paths `old`, `new` that normalize to the
same string after stripping leading/trailing `/`, `rename(old, new)`
returns successfully and changes nothing — even when the path does not
exist, and no blob version or checkpoint record is touched. -/
theorem rename_same_normalized_noop (s : Store) (old new : String)
    (h : pstrip old = pstrip new) : rename s old new = (.ok (), s) := by
  simp [rename, h]

/-- Witness for C10 at a concrete input: `"a/"` and `"/a"` normalize alike,
so renaming on the empty store silently succeeds. -/
theorem rename_same_normalized_noop_witness :
    pstrip "a/" = pstrip "/a" ∧ rename Store.empty "a/" "/a" = (.ok (), Store.empty) :=
  ⟨by decide, rename_same_normalized_noop Store.empty "a/" "/a" (by decide)⟩

/-! ## C7 — create_checkpoint -/

theorem setIdFirst_exists (m : CpRec → Bool) (v : Nat)
    (hm : ∀ r, m { r with mongoId := v } = m r) :
    ∀ l : List CpRec, (∃ r ∈ l, m r = true) →
      ∃ r ∈ setIdFirst l m v, m r = true := by
  intro l
  induction l with
  | nil => intro h; simp at h
  | cons a t ih =>
    intro h
    obtain ⟨r, hr, hmr⟩ := h
    by_cases ha : m a = true
    · refine ⟨{ a with mongoId := v }, ?_, by rw [hm]; exact ha⟩
      simp [setIdFirst, ha]
    · rcases List.mem_cons.mp hr with rfl | hrt
      · exact absurd hmr ha
      · obtain ⟨r', hr', hmr'⟩ := ih ⟨r, hrt, hmr⟩
        refine ⟨r', ?_, hmr'⟩
        simp [setIdFirst, ha]
        right
        exact hr'

/-! ## Lemmas about the composite operations -/

theorem file_exists_pstrip (s : Store) (p : String) :
    file_exists s (pstrip p) = file_exists s p := by
  rw [file_exists, file_exists, pstrip_idem]

theorem list_checkpoints_pstrip (s : Store) (p : String) :
    list_checkpoints s (pstrip p) = list_checkpoints s p := by
  rw [list_checkpoints, list_checkpoints, pstrip_idem]

theorem create_checkpoint_files (s : Store) (p : String) :
    (create_checkpoint s p).2.files = s.files := by
  rw [create_checkpoint]
  rcases getVersion s (pstrip p) with _ | b
  · rfl
  · simp only []
    split
    · rfl
    · rfl

theorem create_checkpoint_time (s : Store) (p : String) :
    (create_checkpoint s p).2.time = s.time := by
  rw [create_checkpoint]
  rcases getVersion s (pstrip p) with _ | b
  · rfl
  · simp only []
    split
    · rfl
    · rfl

theorem create_checkpoint_fst {s : Store} {p : String} {b : Blob}
    (hb : getVersion s (pstrip p) = some b) :
    (create_checkpoint s p).1 = .ok ⟨(cpFind s (pstrip p)).length, s.time⟩ := by
  rw [create_checkpoint, hb]

theorem getAux_nonroot_notebook (fuel : Nat) (s : Store) (p' : String) (content : Bool)
    (hstrip : pstrip p' = p') (hne : p' ≠ "") (hfe : file_exists s p' = true)
    (hext : endsIpynb p' = true) :
    getAux (fuel + 1) s p' content none = notebook_model s p' content := by
  have hb : (p' == "") = false := by rw [beq_eq_false_iff_ne]; exact hne
  unfold getAux
  simp only [hstrip, existsPath, file_exists_pstrip, hfe, dir_exists, hb, Bool.or_false,
    Bool.not_true, Bool.false_eq_true, if_false, hext, Bool.and_true, Bool.true_and]
  simp [hb]

theorem contentsGet_nonroot_notebook (s : Store) (p' : String) (content : Bool)
    (hstrip : pstrip p' = p') (hne : p' ≠ "") (hfe : file_exists s p' = true)
    (hext : endsIpynb p' = true) :
    contentsGet s p' content none = notebook_model s p' content := by
  rw [contentsGet, recursionBound_eq]
  exact getAux_nonroot_notebook 999 s p' content hstrip hne hfe hext

theorem saveCpStep_false {s : Store} {p : String}
    (hc : (file_exists s p && (list_checkpoints s p).isEmpty) = false) :
    saveCpStep s p = (.ok (), s) := by
  rw [saveCpStep, hc]
  rfl

theorem saveCpStep_true {s : Store} {p : String}
    (hfe : file_exists s p = true) (hcpe : (list_checkpoints s p).isEmpty = true) :
    saveCpStep s p = (.ok (), (create_checkpoint s p).2) := by
  have hsome : (getVersion s (pstrip p)).isSome := (file_exists_eq_getVersion_isSome.mp hfe).2
  obtain ⟨b, hb⟩ := Option.isSome_iff_exists.mp hsome
  rw [saveCpStep, hfe, hcpe]
  simp only [Bool.and_self, if_true]
  rcases hcc : create_checkpoint s p with ⟨rr, s₁⟩
  have h1 : rr = .ok ⟨(cpFind s (pstrip p)).length, s.time⟩ := by
    rw [← create_checkpoint_fst hb, hcc]
  subst h1
  rfl

theorem saveBody_notebook (s : Store) (p : String) (j : Json) (fmt : Option String) :
    saveBody s "notebook" (some (.json j)) fmt p =
      (.ok (), fsPut s p (.nb (Json.sortKeys j))) := rfl

theorem save_notebook_eq (s s₁ : Store) (j : Json) (fmt : Option String) (p : String)
    (hne : pstrip p ≠ "") (hext : endsIpynb (pstrip p) = true)
    (hs₁ : s₁ = if file_exists s (pstrip p) && (list_checkpoints s (pstrip p)).isEmpty
        then (create_checkpoint s (pstrip p)).2 else s) :
    save s ⟨some "notebook", some (.json j), fmt⟩ p =
      (.ok (.mk { base_model (fsPut s₁ (pstrip p) (.nb (Json.sortKeys j))) (pstrip p) with
          mtype := some "notebook" } none none),
       fsPut s₁ (pstrip p) (.nb (Json.sortKeys j))) := by
  have hsp : pstrip (pstrip p) = pstrip p := pstrip_idem p
  rw [save]
  simp only []
  by_cases hc : (file_exists s (pstrip p) && (list_checkpoints s (pstrip p)).isEmpty) = true
  case pos =>
    rw [hc] at hs₁
    simp only [if_true] at hs₁
    rw [Bool.and_eq_true] at hc
    rw [saveCpStep_true hc.1 hc.2]
    simp only []
    rw [saveBody_notebook]
    simp only []
    rw [← hs₁]
    rw [contentsGet_nonroot_notebook _ _ _ hsp hne
      (file_exists_fsPut_self _ _ _ hsp hne) hext]
    rfl
  case neg =>
    rw [Bool.eq_false_iff.mpr hc] at hs₁
    simp only [Bool.false_eq_true, if_false] at hs₁
    rw [saveCpStep_false (Bool.eq_false_iff.mpr hc)]
    simp only []
    rw [saveBody_notebook]
    simp only []
    rw [← hs₁]
    rw [contentsGet_nonroot_notebook _ _ _ hsp hne
      (file_exists_fsPut_self _ _ _ hsp hne) hext]
    rfl

theorem fsPut_cps_eq (s : Store) (p : String) (d : BlobData) :
    (fsPut s p d).cps = s.cps := rfl

theorem list_checkpoints_eq_of_cps {s s' : Store} (h : s'.cps = s.cps) (q : String) :
    list_checkpoints s' q = list_checkpoints s q := by
  rw [list_checkpoints, list_checkpoints, cpFind, cpFind, h]

theorem file_exists_of_getVersion_none {s : Store} {p : String}
    (h : getVersion s (pstrip p) = none) : file_exists s p = false := by
  rw [Bool.eq_false_iff]
  intro hc
  have h2 := (file_exists_eq_getVersion_isSome.mp hc).2
  rw [h, Option.isSome_none] at h2
  exact Bool.false_ne_true h2

theorem create_checkpoint_mem {s : Store} {p : String} {b : Blob}
    (hb : getVersion s (pstrip p) = some b) :
    ∃ r ∈ (create_checkpoint s p).2.cps,
      r.path = pstrip p ∧ r.cp = (cpFind s (pstrip p)).length ∧
      r.lastModified = s.time := by
  rw [create_checkpoint, hb]
  simp only []
  set m := fun r : CpRec =>
    r.path == pstrip p && r.cp == (cpFind s (pstrip p)).length &&
    r.blobId == b.oid && r.lastModified == s.time with hmdef
  by_cases hany : s.cps.any m = true
  · simp only [hany, if_true]
    have hm : ∀ r : CpRec, m { r with mongoId := b.oid } = m r := fun r => rfl
    obtain ⟨r, hr, hmr⟩ := setIdFirst_exists m b.oid hm s.cps (List.any_eq_true.mp hany)
    refine ⟨r, hr, ?_⟩
    rw [hmdef] at hmr
    simp only [Bool.and_eq_true, beq_iff_eq] at hmr
    exact ⟨hmr.1.1.1, hmr.1.1.2, hmr.2⟩
  · simp only [hany, if_false]
    exact ⟨⟨b.oid, pstrip p, (cpFind s (pstrip p)).length, b.oid, s.time⟩,
      by simp, rfl, rfl, rfl⟩

theorem list_checkpoints_ne_nil_of_mem {s : Store} {p : String} {r : CpRec}
    (hr : r ∈ s.cps) (hp : r.path = pstrip p) : list_checkpoints s p ≠ [] := by
  rw [list_checkpoints]
  have hmem : r ∈ cpFind s (pstrip p) :=
    List.mem_filter.mpr ⟨hr, by rw [hp]; exact beq_self_eq_true _⟩
  intro hnil
  rw [List.map_eq_nil_iff] at hnil
  rw [hnil] at hmem
  exact List.not_mem_nil r hmem

/-- C7: `createCheckpoint(p)` fails when `p` has no stored blob version;
otherwise it ensures a checkpoint record whose sequence id equals the
count of records existing for `p` at the time of the call and whose
timestamp is now, and returns that record's `{id, lastModified}`
projection. -/
theorem create_checkpoint_spec (s : Store) (p : String) :
    (getVersion s (pstrip p) = none →
      (create_checkpoint s p).1 = .error .noFile ∧ (create_checkpoint s p).2 = s) ∧
    ∀ b, getVersion s (pstrip p) = some b →
      (create_checkpoint s p).1 = .ok ⟨(list_checkpoints s p).length, s.time⟩ ∧
      ∃ r ∈ (create_checkpoint s p).2.cps,
        r.path = pstrip p ∧ r.cp = (list_checkpoints s p).length ∧
        r.lastModified = s.time := by
  have hlen : (list_checkpoints s p).length = (cpFind s (pstrip p)).length :=
    List.length_map _ _
  constructor
  · intro h
    simp [create_checkpoint, h]
  · intro b h
    refine ⟨by rw [create_checkpoint_fst h, hlen], ?_⟩
    obtain ⟨r, hr, h1, h2, h3⟩ := create_checkpoint_mem h
    exact ⟨r, hr, h1, hlen ▸ h2, h3⟩

set_option maxRecDepth 40000 in
/-- Witness for C7: on the empty store `create_checkpoint` fails with
`NoFile`; on the store holding one version of `"a.ipynb"` it returns
sequence id 0 with the clock time and a matching record exists. -/
theorem create_checkpoint_spec_witness :
    ((create_checkpoint Store.empty "nope.ipynb").1 = .error .noFile ∧
      (create_checkpoint Store.empty "nope.ipynb").2 = Store.empty) ∧
    ((create_checkpoint stA "a.ipynb").1 =
        .ok ⟨(list_checkpoints stA "a.ipynb").length, stA.time⟩ ∧
      ∃ r ∈ (create_checkpoint stA "a.ipynb").2.cps,
        r.path = pstrip "a.ipynb" ∧ r.cp = (list_checkpoints stA "a.ipynb").length ∧
        r.lastModified = stA.time) :=
  ⟨(create_checkpoint_spec Store.empty "nope.ipynb").1 (by decide),
   (create_checkpoint_spec stA "a.ipynb").2 ⟨0, .nb (Json.sortKeys nbA)⟩
     (by with_unfolding_all decide)⟩

/-! ## C1 — checkpoint after first save -/

set_option maxRecDepth 40000 in
/-- C1 counterexample: `"a.ipynb"` has never been saved (no blob version);
the first `save` succeeds, yet `list_checkpoints` returns no record
afterwards — the claim's "at least one CheckpointRecord" fails. -/
theorem first_save_no_checkpoint_cex :
    file_exists Store.empty "a.ipynb" = false ∧
    (save Store.empty saveModelA "a.ipynb").1.isOk = true ∧
    list_checkpoints (save Store.empty saveModelA "a.ipynb").2 "a.ipynb" = [] := by
  with_unfolding_all decide

/-- C1 (amended): on a previously unsaved path the first successful save
creates no checkpoint record; the implicit checkpoint 0 is created when
the second save runs (the path then has a blob version and no records), so
`listCheckpoints(p)` is nonempty once the second save completes. -/
theorem first_save_checkpoint_after_second_save (s : Store) (j : Json)
    (fmt : Option String) (p : String)
    (hne : pstrip p ≠ "") (hext : endsIpynb (pstrip p) = true)
    (hnew : getVersion s (pstrip p) = none)
    (hcp : list_checkpoints s p = []) :
    (save s ⟨some "notebook", some (.json j), fmt⟩ p).1.isOk = true ∧
    list_checkpoints (save s ⟨some "notebook", some (.json j), fmt⟩ p).2 p = [] ∧
    (save (save s ⟨some "notebook", some (.json j), fmt⟩ p).2
      ⟨some "notebook", some (.json j), fmt⟩ p).1.isOk = true ∧
    list_checkpoints (save (save s ⟨some "notebook", some (.json j), fmt⟩ p).2
      ⟨some "notebook", some (.json j), fmt⟩ p).2 p ≠ [] := by
  have hsp : pstrip (pstrip p) = pstrip p := pstrip_idem p
  have hfe : file_exists s p = false := file_exists_of_getVersion_none hnew
  have h1 := save_notebook_eq s s j fmt p hne hext (by
    rw [file_exists_pstrip, hfe]
    simp)
  set S2 := fsPut s (pstrip p) (.nb (Json.sortKeys j)) with hS2
  have c1 : (save s ⟨some "notebook", some (.json j), fmt⟩ p).1.isOk = true := by
    rw [h1]
    rfl
  have hsnd : (save s ⟨some "notebook", some (.json j), fmt⟩ p).2 = S2 := by rw [h1]
  have hcps2 : list_checkpoints S2 p = [] := by
    rw [list_checkpoints_eq_of_cps (fsPut_cps_eq s (pstrip p) _) p]
    exact hcp
  have hfe2 : file_exists S2 p = true := by
    rw [← file_exists_pstrip]
    exact file_exists_fsPut_self s _ (pstrip p) hsp hne
  have h2 := save_notebook_eq S2 ((create_checkpoint S2 (pstrip p)).2) j fmt p hne hext (by
    rw [file_exists_pstrip, hfe2, list_checkpoints_pstrip, hcps2]
    simp)
  have hv2 : getVersion S2 (pstrip p) = some ⟨s.nextId, .nb (Json.sortKeys j)⟩ :=
    getVersion_fsPut_self s (pstrip p) _
  obtain ⟨r, hr, hrpath, _, _⟩ :=
    create_checkpoint_mem (s := S2) (p := pstrip p) (by rw [hsp]; exact hv2)
  refine ⟨c1, by rw [hsnd]; exact hcps2, by rw [hsnd, h2]; rfl, ?_⟩
  rw [hsnd, h2]
  intro hnil
  rw [list_checkpoints_eq_of_cps (fsPut_cps_eq _ _ _) p] at hnil
  exact list_checkpoints_ne_nil_of_mem hr (by rw [hrpath, hsp]) hnil

/-- Witness for C1's amended theorem at `"a.ipynb"` on the empty store. -/
theorem first_save_checkpoint_after_second_save_witness :
    (save Store.empty ⟨some "notebook", some (.json nbA), none⟩ "a.ipynb").1.isOk = true ∧
    list_checkpoints
      (save Store.empty ⟨some "notebook", some (.json nbA), none⟩ "a.ipynb").2 "a.ipynb" = [] ∧
    (save (save Store.empty ⟨some "notebook", some (.json nbA), none⟩ "a.ipynb").2
      ⟨some "notebook", some (.json nbA), none⟩ "a.ipynb").1.isOk = true ∧
    list_checkpoints
      (save (save Store.empty ⟨some "notebook", some (.json nbA), none⟩ "a.ipynb").2
        ⟨some "notebook", some (.json nbA), none⟩ "a.ipynb").2 "a.ipynb" ≠ [] :=
  first_save_checkpoint_after_second_save Store.empty nbA none "a.ipynb"
    (by decide) (by decide) (by decide) (by decide)

/-! ## C2 — delete -/

theorem getVersion_mem {s : Store} {q : String} {b : Blob}
    (h : getVersion s q = some b) : (q, b) ∈ s.files := by
  rw [getVersion] at h
  rcases hf : s.files.reverse.find? (fun e => e.1 == q) with _ | e
  · rw [hf] at h
    exact absurd h (by simp)
  · rw [hf] at h
    have hpred := List.find?_some hf
    have hmem := List.mem_of_find?_eq_some hf
    rw [List.mem_reverse] at hmem
    simp only [Option.map_some', Option.some.injEq] at h
    rw [beq_iff_eq] at hpred
    have : e = (q, b) := by
      rcases e with ⟨n, bb⟩
      simp only at hpred h
      rw [hpred, h]
    rw [← this]
    exact hmem

set_option maxRecDepth 40000 in
/-- C2 counterexample: after two saves, `"a.ipynb"` has two blob versions;
`delete` returns without error but removes only the latest version, so the
path still exists — "removes every stored blob version" fails. -/
theorem delete_two_versions_cex :
    versionsAt stA2 (pstrip "a.ipynb") = 2 ∧
    (delete stA2 "a.ipynb").1.isOk = true ∧
    existsPath (delete stA2 "a.ipynb").2 "a.ipynb" = true := by
  with_unfolding_all decide

/-- C2 (amended): `delete(p)` on a nonexistent path returns without error
and changes nothing; on an existing path it removes the latest blob
version, so `exists(p) == false` afterwards when the path had exactly one
version (with several versions the older ones survive and the path still
exists). -/
theorem delete_spec (s : Store) (p : String) :
    (file_exists s p = false → delete s p = (.ok (), s)) ∧
    (file_exists s p = true → versionsAt s (pstrip p) = 1 →
      (delete s p).1 = .ok () ∧ existsPath (delete s p).2 p = false) := by
  constructor
  · intro hfe
    rw [delete, hfe]
    simp
  · intro hfe hv
    have hne : pstrip p ≠ "" := (file_exists_iff.mp hfe).1
    have hsome := (file_exists_eq_getVersion_isSome.mp hfe).2
    obtain ⟨b, hb⟩ := Option.isSome_iff_exists.mp hsome
    have hdel : delete s p = (.ok (), fsDeleteId s b.oid) := by
      rw [delete, hfe]
      simp only [hb]
      simp
    refine ⟨by rw [hdel], ?_⟩
    rw [hdel]
    have hmem : (pstrip p, b) ∈ s.files := getVersion_mem hb
    have hsingle : s.files.filter (fun e => e.1 == pstrip p) = [(pstrip p, b)] := by
      have hmem2 : (pstrip p, b) ∈ s.files.filter (fun e => e.1 == pstrip p) :=
        List.mem_filter.mpr ⟨hmem, beq_self_eq_true _⟩
      rw [versionsAt] at hv
      obtain ⟨a, ha⟩ := List.length_eq_one.mp hv
      rw [ha] at hmem2 ⊢
      rw [List.mem_singleton] at hmem2
      rw [hmem2]
    rw [existsPath]
    simp only [dir_exists, pstrip_idem]
    have hbne : (pstrip p == "") = false := by
      rw [beq_eq_false_iff_ne]
      exact hne
    rw [hbne, Bool.or_false, Bool.eq_false_iff]
    intro hq
    obtain ⟨-, e, he, hname⟩ := file_exists_iff.mp hq
    rw [pstrip_idem] at hname
    have he' : e ∈ s.files.filter (fun x => x.2.oid != b.oid) := he
    have he2 := List.mem_filter.mp he'
    have hee : e ∈ s.files.filter (fun x => x.1 == pstrip p) :=
      List.mem_filter.mpr ⟨he2.1, by rw [hname]; exact beq_self_eq_true _⟩
    rw [hsingle, List.mem_singleton] at hee
    have hoid := he2.2
    rw [hee] at hoid
    simp at hoid

set_option maxRecDepth 40000 in
/-- Witness for C2's amended theorem: deleting a never-saved path is a
no-op; deleting `"a.ipynb"` when it has exactly one version makes it
nonexistent. -/
theorem delete_spec_witness :
    (delete Store.empty "nope.ipynb" = (.ok (), Store.empty)) ∧
    ((delete stA "a.ipynb").1 = .ok () ∧
      existsPath (delete stA "a.ipynb").2 "a.ipynb" = false) :=
  ⟨(delete_spec Store.empty "nope.ipynb").1 (by decide),
   (delete_spec stA "a.ipynb").2 (by with_unfolding_all decide)
     (by with_unfolding_all decide)⟩

/-! ## C6 — rename onto an existing destination -/

set_option maxRecDepth 40000 in
/-- C6 counterexample: the root `""` always exists (`exists("/")` is true)
and is distinct from `"a.ipynb"`, yet `rename("a.ipynb", "/")` does not
fail with Conflict — the guard tests `file_exists`, not `exists`, so the
blob is silently moved to the empty filename. -/
theorem rename_conflict_cex :
    existsPath stA "/" = true ∧
    pstrip "a.ipynb" ≠ pstrip "/" ∧
    (rename stA "a.ipynb" "/").1.isOk = true := by
  with_unfolding_all decide

/-- C6 (amended): for distinct normalized paths, `rename(old, new)` fails
with Conflict (HTTP 409) when `new` has a stored blob version
(`file_exists(new)`, which is what `exists(new)` means for every non-root
path) and leaves the entire store — content of both paths and all
checkpoint records — unchanged.  `exists(new) == true` alone does not
suffice: the always-existing root is not caught by the guard. -/
theorem rename_conflict (s : Store) (old new : String)
    (hdist : pstrip old ≠ pstrip new) (hfe : file_exists s new = true) :
    rename s old new = (.error (.httpError 409 none), s) := by
  have h1 : (pstrip new == pstrip old) = false := by
    rw [beq_eq_false_iff_ne]
    exact fun h => hdist h.symm
  rw [rename]
  simp only [h1, Bool.false_eq_true, if_false, file_exists_pstrip, hfe, if_true]

set_option maxRecDepth 40000 in
/-- Witness for C6's amended theorem: renaming anything onto the existing
`"a.ipynb"` fails 409 and the store is untouched. -/
theorem rename_conflict_witness :
    rename stA "b.ipynb" "a.ipynb" = (.error (.httpError 409 none), stA) :=
  rename_conflict stA "b.ipynb" "a.ipynb" (by decide) (by with_unfolding_all decide)

/-! ## C8 — never-saved paths and plain-file retrieval -/

theorem existsPath_pstrip (s : Store) (p : String) :
    existsPath s (pstrip p) = existsPath s p := by
  rw [existsPath, existsPath, pstrip_idem]

theorem contentsGet_badtype (s : Store) (p' : String) (content : Bool) (t : Option String)
    (hstrip : pstrip p' = p') (hfe : file_exists s p' = true)
    (hext : endsIpynb p' = false) (ht : t ≠ some "notebook") :
    contentsGet s p' content t = .error (.httpError 400 (some "bad type")) := by
  have hne : p' ≠ "" := by
    have := (file_exists_iff.mp hfe).1
    rwa [hstrip] at this
  have hb : (p' == "") = false := by rw [beq_eq_false_iff_ne]; exact hne
  have htb : (t == some "notebook") = false := by rw [beq_eq_false_iff_ne]; exact ht
  rw [contentsGet, recursionBound_eq]
  unfold getAux
  simp only [hstrip, existsPath, file_exists_pstrip, hfe, dir_exists, hb, Bool.or_false,
    Bool.not_true, Bool.false_eq_true, if_false, htb, hext, Bool.and_false, Bool.false_or]
  rcases t with _ | t'
  · simp [hb]
  · simp [hb]

set_option maxRecDepth 40000 in
/-- C8 counterexample: the root `""` was never saved, yet `exists("")` is
true and `get("")` succeeds with a directory model instead of failing
NotFound — the universally quantified first half of the claim fails at the
root path. -/
theorem get_root_exists_cex :
    existsPath Store.empty "" = true ∧
    (contentsGet Store.empty "" true none).isOk = true := by
  with_unfolding_all decide

/-- C8 (amended): for every path with a non-empty normalization and no
stored blob version, `exists` is false and `get` fails NotFound (HTTP
404); the root `""` is the exception — it always exists as the synthetic
directory.  And every existing non-root path that does not end in
`.ipynb`, requested with a type other than `'notebook'`, fails with HTTP
400 `bad type`: no plain-file model is ever returned. -/
theorem get_never_saved_and_badtype (s : Store) (p : String) (content : Bool)
    (t : Option String) :
    (pstrip p ≠ "" → getVersion s (pstrip p) = none →
      existsPath s p = false ∧
      contentsGet s p content t = .error (.httpError 404 none)) ∧
    (file_exists s p = true → endsIpynb (pstrip p) = false → t ≠ some "notebook" →
      contentsGet s p content t = .error (.httpError 400 (some "bad type"))) := by
  constructor
  · intro hne hnone
    have hfe : file_exists s p = false := file_exists_of_getVersion_none hnone
    have hb : (pstrip p == "") = false := by rw [beq_eq_false_iff_ne]; exact hne
    have hep : existsPath s p = false := by
      rw [existsPath, dir_exists]
      rw [← file_exists_pstrip] at hfe
      rw [hfe, hb, Bool.or_false]
    refine ⟨hep, ?_⟩
    rw [contentsGet, recursionBound_eq]
    unfold getAux
    rw [← existsPath_pstrip] at hep
    simp [hep]
  · intro hfe hext ht
    have hgb := contentsGet_badtype s (pstrip p) content t (pstrip_idem p)
      (by rw [file_exists_pstrip]; exact hfe) hext ht
    rw [contentsGet, recursionBound_eq] at hgb ⊢
    rw [show pstrip p = pstrip p from rfl] at hgb
    calc getAux (999 + 1) s p content t
        = getAux (999 + 1) s (pstrip p) content t := by
          unfold getAux
          rw [pstrip_idem]
      _ = .error (.httpError 400 (some "bad type")) := hgb

set_option maxRecDepth 40000 in
/-- Witness for C8's amended theorem: `"nope.ipynb"` was never saved on
the empty store (part one); `"data.txt"` — persisted by a file-model save
— is rejected with `bad type` when fetched with type `'file'` (part
two). -/
theorem get_never_saved_and_badtype_witness :
    (existsPath Store.empty "nope.ipynb" = false ∧
      contentsGet Store.empty "nope.ipynb" true none = .error (.httpError 404 none)) ∧
    contentsGet (save Store.empty ⟨some "file", some (.text "hi"), some "text"⟩ "data.txt").2
      "data.txt" true (some "file") = .error (.httpError 400 (some "bad type")) :=
  ⟨(get_never_saved_and_badtype Store.empty "nope.ipynb" true none).1
      (by decide) (by decide),
   (get_never_saved_and_badtype
      (save Store.empty ⟨some "file", some (.text "hi"), some "text"⟩ "data.txt").2
      "data.txt" true (some "file")).2
      (by with_unfolding_all decide) (by decide) (by decide)⟩

/-! ## C4 — saving a file model -/

theorem saveBody_file (s : Store) (p : String) (c : SaveContent) (fmt : Option String) :
    saveBody s "file" (some c) fmt p = (.ok (), save_file s p c fmt) := rfl

theorem save_file_eq (s s₁ : Store) (c : SaveContent) (fmt : Option String) (p : String)
    (hne : pstrip p ≠ "") (hext : endsIpynb (pstrip p) = false)
    (hs₁ : s₁ = if file_exists s (pstrip p) && (list_checkpoints s (pstrip p)).isEmpty
        then (create_checkpoint s (pstrip p)).2 else s) :
    save s ⟨some "file", some c, fmt⟩ p =
      (.error (.httpError 400 (some "bad type")),
       fsPut s₁ (pstrip p) (.raw c fmt)) := by
  have hsp : pstrip (pstrip p) = pstrip p := pstrip_idem p
  rw [save]
  simp only []
  by_cases hc : (file_exists s (pstrip p) && (list_checkpoints s (pstrip p)).isEmpty) = true
  case pos =>
    rw [hc] at hs₁
    simp only [if_true] at hs₁
    rw [Bool.and_eq_true] at hc
    rw [saveCpStep_true hc.1 hc.2]
    simp only []
    rw [saveBody_file]
    simp only []
    rw [← hs₁]
    rw [show save_file s₁ (pstrip p) c fmt = fsPut s₁ (pstrip p) (.raw c fmt) from rfl]
    rw [contentsGet_badtype _ _ _ _ hsp (file_exists_fsPut_self _ _ _ hsp hne) hext
      (by intro h; cases h)]
    rfl
  case neg =>
    rw [Bool.eq_false_iff.mpr hc] at hs₁
    simp only [Bool.false_eq_true, if_false] at hs₁
    rw [saveCpStep_false (Bool.eq_false_iff.mpr hc)]
    simp only []
    rw [saveBody_file]
    simp only []
    rw [← hs₁]
    rw [show save_file s₁ (pstrip p) c fmt = fsPut s₁ (pstrip p) (.raw c fmt) from rfl]
    rw [contentsGet_badtype _ _ _ _ hsp (file_exists_fsPut_self _ _ _ hsp hne) hext
      (by intro h; cases h)]
    rfl

set_option maxRecDepth 40000 in
/-- C4 counterexample: saving a file model at `"data.txt"` persists the
raw, undecoded payload with its declared format — but `save` then fails
with HTTP 400 `bad type` when it rebuilds the model through
`get(path, content=False)`, so no metadata-only model is returned. -/
theorem save_file_no_model_cex :
    getVersion (save Store.empty ⟨some "file", some (.text "hi"), some "text"⟩ "data.txt").2
      "data.txt" = some ⟨0, .raw (.text "hi") (some "text")⟩ ∧
    (save Store.empty ⟨some "file", some (.text "hi"), some "text"⟩ "data.txt").1.isOk
      = false := by
  with_unfolding_all decide

/-- C4 (amended): for every model of type `'file'` with content present,
`save(model, p)` persists the raw content with the caller-declared format
and no decoding — but for every path not ending in `.ipynb` it then fails
with a BadType client-input error instead of returning a metadata-only
model, because the final `get(path, content=False)` rejects non-notebook
paths. -/
theorem save_file_persists_then_badtype (s : Store) (c : SaveContent)
    (fmt : Option String) (p : String)
    (hne : pstrip p ≠ "") (hext : endsIpynb (pstrip p) = false) :
    (∃ n, getVersion (save s ⟨some "file", some c, fmt⟩ p).2 (pstrip p) =
        some ⟨n, .raw c fmt⟩) ∧
    (save s ⟨some "file", some c, fmt⟩ p).1 =
      .error (.httpError 400 (some "bad type")) := by
  have h := save_file_eq s
    (if file_exists s (pstrip p) && (list_checkpoints s (pstrip p)).isEmpty
      then (create_checkpoint s (pstrip p)).2 else s) c fmt p hne hext rfl
  rw [h]
  exact ⟨⟨_, getVersion_fsPut_self _ _ _⟩, rfl⟩

set_option maxRecDepth 40000 in
/-- Witness for C4's amended theorem at `"data.txt"` on the empty store. -/
theorem save_file_persists_then_badtype_witness :
    (∃ n, getVersion
        (save Store.empty ⟨some "file", some (.text "hi"), some "text"⟩ "data.txt").2
        (pstrip "data.txt") = some ⟨n, .raw (.text "hi") (some "text")⟩) ∧
    (save Store.empty ⟨some "file", some (.text "hi"), some "text"⟩ "data.txt").1 =
      .error (.httpError 400 (some "bad type")) :=
  save_file_persists_then_badtype Store.empty (.text "hi") (some "text") "data.txt"
    (by decide) (by decide)

/-! ## C9 — directory listing -/

/-- The `type` field of a `get` result (`none` on error). -/
def resMtype : Except PyErr Model → Option String
  | .ok m => m.mtype
  | .error _ => none

/-- The names of the directory-listing entries of a `get` result. -/
def resListingNames : Except PyErr Model → List String
  | .ok m => (m.listing.getD []).map Model.name
  | .error _ => []

set_option maxRecDepth 100000 in
/-- C9: after saving exactly two documents, at `"a.ipynb"` and `"b.ipynb"`,
the store's key listing has exactly those two keys and
`get("", content=true)` returns a directory model whose content has
exactly two entries, named `a.ipynb` and `b.ipynb` — one model per listed
key. -/
theorem dir_listing_two_entries :
    fsList stAB = ["a.ipynb", "b.ipynb"] ∧
    (contentsGet stAB "" true none).isOk = true ∧
    resMtype (contentsGet stAB "" true none) = some "directory" ∧
    resListingNames (contentsGet stAB "" true none) = ["a.ipynb", "b.ipynb"] := by
  with_unfolding_all decide

/-! ## C5 — notebook round trip -/

theorem contentsGet_pstrip (s : Store) (p : String) (content : Bool) (t : Option String) :
    contentsGet s (pstrip p) content t = contentsGet s p content t := by
  rw [contentsGet, contentsGet, recursionBound_eq]
  unfold getAux
  rw [pstrip_idem]

set_option maxRecDepth 40000 in
/-- C5 counterexample: with a valid notebook model and the path
`"nb.txt"`, the round trip fails — `save` persists the blob but raises
while rebuilding the model, and `get(p, content=true)` fails `bad type`,
returning no document at all, let alone a structurally equal one. -/
theorem roundtrip_nonipynb_cex :
    (save Store.empty saveModelA "nb.txt").1.isOk = false ∧
    (contentsGet (save Store.empty saveModelA "nb.txt").2 "nb.txt" true none).isOk
      = false := by
  with_unfolding_all decide

/-- C5 (amended): for every notebook model and every path whose
normalization is non-empty and ends in `.ipynb`, `save(m, p)` followed by
`get(p, content=true)` returns a notebook model whose decoded content is
structurally equal to the saved content: the stored document is the
key-sorted serialization of the saved one, so decoded structure is
preserved while serialized key order may differ. -/
theorem save_get_roundtrip (s : Store) (j : Json) (fmt : Option String) (p : String)
    (hne : pstrip p ≠ "") (hext : endsIpynb (pstrip p) = true) :
    ∃ m, contentsGet (save s ⟨some "notebook", some (.json j), fmt⟩ p).2 p true none
        = .ok m ∧
      m.jcontent = some (Json.sortKeys j) ∧ Json.structEq (Json.sortKeys j) j ∧
      m.mtype = some "notebook" ∧ m.mformat = some "json" := by
  have hsp : pstrip (pstrip p) = pstrip p := pstrip_idem p
  have h1 := save_notebook_eq s
    (if file_exists s (pstrip p) && (list_checkpoints s (pstrip p)).isEmpty
      then (create_checkpoint s (pstrip p)).2 else s) j fmt p hne hext rfl
  set s₁ := (if file_exists s (pstrip p) && (list_checkpoints s (pstrip p)).isEmpty
    then (create_checkpoint s (pstrip p)).2 else s) with hs₁
  set S2 := fsPut s₁ (pstrip p) (.nb (Json.sortKeys j)) with hS2
  have hsnd : (save s ⟨some "notebook", some (.json j), fmt⟩ p).2 = S2 := by rw [h1]
  rw [hsnd, ← contentsGet_pstrip]
  rw [contentsGet_nonroot_notebook _ _ _ hsp hne
    (file_exists_fsPut_self _ _ _ hsp hne) hext]
  rw [notebook_model]
  simp only [if_true]
  have hrd : read_notebook S2 (pstrip p) = .ok (Json.sortKeys j) := by
    rw [read_notebook, hS2, getVersion_fsPut_self]
    rfl
  rw [hrd]
  refine ⟨_, rfl, rfl, ?_, rfl, rfl⟩
  rw [Json.structEq, Json.sortKeys_idem]

set_option maxRecDepth 40000 in
/-- Witness for C5's amended theorem at `"a.ipynb"` on the empty store. -/
theorem save_get_roundtrip_witness :
    ∃ m, contentsGet
        (save Store.empty ⟨some "notebook", some (.json nbA), none⟩ "a.ipynb").2
        "a.ipynb" true none = .ok m ∧
      m.jcontent = some (Json.sortKeys nbA) ∧ Json.structEq (Json.sortKeys nbA) nbA ∧
      m.mtype = some "notebook" ∧ m.mformat = some "json" :=
  save_get_roundtrip Store.empty nbA none "a.ipynb" (by decide) (by decide)

/-! ## C3 — rename moving content and checkpoints -/

theorem getVersion_of_single {s : Store} {q : String} {b : Blob}
    (h : s.files.filter (fun e => e.1 == q) = [(q, b)]) : getVersion s q = some b := by
  have hmem : (q, b) ∈ s.files :=
    (List.mem_filter.mp (h ▸ List.mem_singleton_self (q, b))).1
  rcases hf : s.files.reverse.find? (fun e => e.1 == q) with _ | e
  · rw [List.find?_eq_none] at hf
    exact absurd (beq_self_eq_true q) (by simpa using hf (q, b) (List.mem_reverse.mpr hmem))
  · have hpred := List.find?_some hf
    have hmem2 := List.mem_of_find?_eq_some hf
    rw [List.mem_reverse] at hmem2
    have he : e ∈ s.files.filter (fun e => e.1 == q) := List.mem_filter.mpr ⟨hmem2, hpred⟩
    rw [h, List.mem_singleton] at he
    rw [getVersion, hf, he]
    rfl

theorem getVersion_eq_of_last {s : Store} {q : String} {b : Blob}
    (h : ∃ l, s.files = l ++ [(q, b)]) : getVersion s q = some b := by
  obtain ⟨l, hl⟩ := h
  rw [getVersion, hl, List.reverse_append]
  simp [List.find?_cons]

/-- C3 (amended): for distinct normalized paths with `exists(new) == false`
and `old` non-root holding exactly one stored blob version (a notebook
document), a successful `rename(old, new)`: succeeds, makes `new` exist and
`old` not exist, stores at `new` content equal to the content previously
readable at `old`, and every checkpoint record previously listed for `old`
is listed for `new` with identical sequence ids and timestamps.  With more
than one version at `old` the conclusion `exists(old) == false` fails: the
embedded `delete` removes only the latest version. -/
theorem rename_moves_single_version (s : Store) (old new : String) (b : Blob) (j : Json)
    (hwf : Store.WF s)
    (hdist : pstrip old ≠ pstrip new)
    (ho : pstrip old ≠ "")
    (hnew : existsPath s new = false)
    (hone : s.files.filter (fun e => e.1 == pstrip old) = [(pstrip old, b)])
    (hbd : b.data = .nb j) :
    (rename s old new).1 = .ok () ∧
    existsPath (rename s old new).2 new = true ∧
    existsPath (rename s old new).2 old = false ∧
    (∃ n, getVersion (rename s old new).2 (pstrip new) = some ⟨n, .nb j⟩) ∧
    getVersion s (pstrip old) = some b ∧
    (∀ c ∈ list_checkpoints s old, c ∈ list_checkpoints (rename s old new).2 new) := by
  have hspo : pstrip (pstrip old) = pstrip old := pstrip_idem old
  have hspn : pstrip (pstrip new) = pstrip new := pstrip_idem new
  have hnfe : file_exists s (pstrip new) = false ∧ dir_exists (pstrip new) = false := by
    rw [existsPath] at hnew
    exact Bool.or_eq_false_iff.mp hnew
  have hnne : pstrip new ≠ "" := by
    have h2 := hnfe.2
    rw [dir_exists, beq_eq_false_iff_ne] at h2
    exact h2
  have hvo : getVersion s (pstrip old) = some b := getVersion_of_single hone
  have hmem : (pstrip old, b) ∈ s.files :=
    (List.mem_filter.mp (hone ▸ List.mem_singleton_self (pstrip old, b))).1
  have hoidlt : b.oid < s.nextId := hwf.2 (pstrip old, b) hmem
  set d : BlobData := .nb j with hd
  set s₁ := fsPut s (pstrip new) d with hs₁def
  have hvo₁ : getVersion s₁ (pstrip old) = some b := by
    rw [hs₁def, getVersion_fsPut_ne s (pstrip new) (pstrip old) d hdist, hvo]
  have hfe₁ : file_exists s₁ (pstrip old) = true := by
    rw [file_exists_eq_getVersion_isSome]
    refine ⟨by rw [hspo]; exact ho, by rw [hspo, hvo₁]; rfl⟩
  have hdel : delete s₁ (pstrip old) = (.ok (), fsDeleteId s₁ b.oid) := by
    rw [delete, hfe₁]
    simp only [hspo, hvo₁]
    simp
  have hrun : rename s old new = (.ok (),
      { fsDeleteId s₁ b.oid with cps := retargetCps s.cps (pstrip old) (pstrip new) }) := by
    rw [rename]
    have hno : (pstrip new == pstrip old) = false := by
      rw [beq_eq_false_iff_ne]
      exact fun h => hdist h.symm
    simp only [hno, Bool.false_eq_true, if_false, hnfe.1, hvo, hbd, loadsData]
    rw [← hd, ← hs₁def, hdel]
    rfl
  set S' := (rename s old new).2 with hS'
  have hfiles : S'.files =
      (s.files.filter fun e => e.2.oid != b.oid) ++ [(pstrip new, ⟨s.nextId, d⟩)] := by
    rw [hS', hrun]
    show (fsDeleteId s₁ b.oid).files = _
    rw [show (fsDeleteId s₁ b.oid).files = s₁.files.filter (fun e => e.2.oid != b.oid) from rfl]
    rw [hs₁def]
    rw [show (fsPut s (pstrip new) d).files = s.files ++ [(pstrip new, ⟨s.nextId, d⟩)] from rfl]
    rw [List.filter_append]
    have hsv : ((s.nextId : Nat) != b.oid) = true := by
      rw [bne_iff_ne]
      omega
    simp [hsv]
  have hcps : S'.cps = retargetCps s.cps (pstrip old) (pstrip new) := by
    rw [hS', hrun]
  have hvnew : getVersion S' (pstrip new) = some ⟨s.nextId, d⟩ := by
    apply getVersion_eq_of_last
    exact ⟨_, hfiles⟩
  refine ⟨by rw [hrun], ?_, ?_, ⟨s.nextId, hvnew⟩, hvo, ?_⟩
  · -- exists(new) afterwards
    simp only [existsPath]
    have hfes : file_exists S' (pstrip new) = true := by
      rw [file_exists_eq_getVersion_isSome]
      refine ⟨by rw [hspn]; exact hnne, by rw [hspn, hvnew]; rfl⟩
    rw [hfes]
    rfl
  · -- exists(old) afterwards is false
    simp only [existsPath]
    have hbo : (pstrip old == "") = false := by rw [beq_eq_false_iff_ne]; exact ho
    have hfeo : file_exists S' (pstrip old) = false := by
      rw [Bool.eq_false_iff]
      intro hq
      obtain ⟨-, e, he, hname⟩ := file_exists_iff.mp hq
      rw [hspo] at hname
      rw [hfiles] at he
      rcases List.mem_append.mp he with hl | hr
      · have he2 := List.mem_filter.mp hl
        have hee : e ∈ s.files.filter (fun x => x.1 == pstrip old) :=
          List.mem_filter.mpr ⟨he2.1, by rw [hname]; exact beq_self_eq_true _⟩
        rw [hone, List.mem_singleton] at hee
        have hoid := he2.2
        rw [hee] at hoid
        simp at hoid
      · rw [List.mem_singleton] at hr
        rw [hr] at hname
        exact hdist hname.symm
    rw [hfeo, dir_exists, hbo]
    rfl
  · -- checkpoints move over
    intro c hc
    rw [list_checkpoints, cpFind] at hc
    obtain ⟨r, hr, hproj⟩ := List.mem_map.mp hc
    have hrmem := List.mem_filter.mp hr
    rw [list_checkpoints, cpFind, hcps]
    apply List.mem_map.mpr
    refine ⟨{ r with path := pstrip new }, ?_, by rw [← hproj]⟩
    apply List.mem_filter.mpr
    constructor
    · rw [retargetCps]
      have hmm := List.mem_map_of_mem
        (fun rr : CpRec => if rr.path == pstrip old then { rr with path := pstrip new } else rr)
        hrmem.1
      simp only [hrmem.2, eq_self_iff_true, if_true] at hmm
      exact hmm
    · exact beq_self_eq_true _

set_option maxRecDepth 100000 in
/-- C3 counterexample: `"a.ipynb"` has two stored versions; the rename to
the fresh `"b.ipynb"` succeeds, but `exists("a.ipynb")` is still true
afterwards — only the latest source version was deleted. -/
theorem rename_two_versions_cex :
    existsPath stA2 "a.ipynb" = true ∧
    existsPath stA2 "b.ipynb" = false ∧
    (rename stA2 "a.ipynb" "b.ipynb").1.isOk = true ∧
    existsPath (rename stA2 "a.ipynb" "b.ipynb").2 "a.ipynb" = true := by
  with_unfolding_all decide

set_option maxRecDepth 100000 in
/-- Witness for C3's amended theorem: renaming single-versioned
`"a.ipynb"` to `"b.ipynb"` on `stA`. -/
theorem rename_moves_single_version_witness :
    (rename stA "a.ipynb" "b.ipynb").1 = .ok () ∧
    existsPath (rename stA "a.ipynb" "b.ipynb").2 "b.ipynb" = true ∧
    existsPath (rename stA "a.ipynb" "b.ipynb").2 "a.ipynb" = false ∧
    (∃ n, getVersion (rename stA "a.ipynb" "b.ipynb").2 (pstrip "b.ipynb") =
      some ⟨n, .nb (Json.sortKeys nbA)⟩) ∧
    getVersion stA (pstrip "a.ipynb") = some ⟨0, .nb (Json.sortKeys nbA)⟩ ∧
    (∀ c ∈ list_checkpoints stA "a.ipynb",
      c ∈ list_checkpoints (rename stA "a.ipynb" "b.ipynb").2 "b.ipynb") :=
  rename_moves_single_version stA "a.ipynb" "b.ipynb" ⟨0, .nb (Json.sortKeys nbA)⟩
    (Json.sortKeys nbA)
    (by unfold Store.WF; with_unfolding_all decide) (by decide) (by decide)
    (by with_unfolding_all decide) (by with_unfolding_all decide)
    (by with_unfolding_all decide)
